import Mathlib

/-!
Verification model of the snapshot reconstruction core in
runtime/src/serde_snapshot.rs.

The source couples a bounded binary decoder, a two-source merge of full and
incremental snapshot fields, and a remap-and-rename pass that reconciles
on-disk append-vec files with freshly assigned storage identifiers before
assembling an AccountsDb and a Bank.

The embedding below translates that code into executable Lean definitions:

* machine integers become Nat, with an explicit modulus where u64 wrapping
  matters (the write-version fetch-add);
* the filesystem is an association list from paths to file data; the shared
  atomic counters become explicit state threaded through the (sequentialised)
  per-slot worker loop;
* fallible operations return Except; the two process-aborting assertions of
  the source are modelled as the distinguished error values panicEmptyStorage
  and panicMaxId, so that an abort is never confused with an ordinary error
  return;
* collaborators that live outside the translated file (the bincode crate, the
  AppendVec reader, AccountsDb construction, the Bank constructor, the stream
  readers of the future module) are modelled from the specification; each such
  definition carries a doc comment starting "Modelled from the spec".
-/

namespace SerdeSnapshot

/-- Largest append-vec id value (ids are usize in the source): usize::MAX on
the 64-bit targets the validator supports. Slots and append-vec ids are
modelled as Nat throughout. -/
def APPEND_VEC_ID_MAX : Nat := 2 ^ 64 - 1

/-- Modulus of u64 arithmetic, for the points where wrapping matters. -/
def U64_MOD : Nat := 2 ^ 64

/-- Opaque per-slot bank hash summary (BankHashInfo in the source). -/
abbrev BankHashInfo := Nat

/-- Wire record for one storage entry, the capability surface of the
SerializableStorage trait: an id and a current length. -/
structure SerializableAccountStorageEntry where
  id : Nat
  current_len : Nat
deriving DecidableEq, Repr

/-- Key membership in an association list keyed by slots, mirroring
HashMap::contains_key. -/
def containsKey {α : Type} : List (Nat × α) → Nat → Bool
  | [], _ => false
  | e :: t, k => decide (e.1 = k) || containsKey t k

/-- Canonical on-disk file name of an append-vec. Modelled from the spec:
AppendVec::file_name (external append_vec module) forms the name
deterministically and injectively from the pair (slot, id); the model keeps
the pair itself. -/
structure FileName where
  slot : Nat
  id : Nat
deriving DecidableEq, Repr

/-- Decoding or reconstruction failure; the two panic constructors stand for
the process-aborting assertions of the source, kept distinct from the
recoverable error returns. -/
inductive SnapshotError where
  | incompatible
  | notFound (f : FileName)
  | renameFailed
  | openFailed
  | panicEmptyStorage
  | panicMaxId
deriving DecidableEq, Repr

/-- AccountsDbFields of the source (a positional tuple struct there): the
per-slot storages, the stored-meta write version, the snapshot slot, and the
bank hash info. -/
structure AccountsDbFields (T : Type) where
  storages : List (Nat × List T)
  write_version : Nat
  snapshot_slot : Nat
  bank_hash_info : BankHashInfo
deriving DecidableEq, Repr

/-- Wrapper holding the full snapshot fields and the optional incremental
snapshot fields, as in the source. -/
structure SnapshotAccountsDbFields (T : Type) where
  full_snapshot_accounts_db_fields : AccountsDbFields T
  incremental_snapshot_accounts_db_fields : Option (AccountsDbFields T)
deriving DecidableEq, Repr

/-- Collapse the two snapshot field records into one (source lines 104-137):
without an incremental record the full record is returned unchanged;
otherwise the incremental storages are pruned to slots strictly above the
full snapshot slot, the pruned keys must be disjoint from the full keys, and
the merged record takes version, slot and bank hash info from the
incremental record. -/
def SnapshotAccountsDbFields.collapse_into {T : Type}
    (self : SnapshotAccountsDbFields T) :
    Except SnapshotError (AccountsDbFields T) :=
  match self.incremental_snapshot_accounts_db_fields with
  | none => .ok self.full_snapshot_accounts_db_fields
  | some incr =>
    let full_snapshot_storages := self.full_snapshot_accounts_db_fields.storages
    let full_snapshot_slot := self.full_snapshot_accounts_db_fields.snapshot_slot
    let incremental_snapshot_storages :=
      incr.storages.filter (fun p => decide (full_snapshot_slot < p.1))
    if incremental_snapshot_storages.all
        (fun p => !(containsKey full_snapshot_storages p.1)) then
      .ok ⟨full_snapshot_storages ++ incremental_snapshot_storages,
        incr.write_version, incr.snapshot_slot, incr.bank_hash_info⟩
    else
      .error .incompatible

theorem containsKey_eq_true_iff {α : Type} (m : List (Nat × α)) (k : Nat) :
    containsKey m k = true ↔ ∃ v, (k, v) ∈ m := by
  induction m with
  | nil => simp [containsKey]
  | cons e t ih =>
    simp only [containsKey, Bool.or_eq_true, decide_eq_true_eq, ih,
      List.mem_cons]
    constructor
    · rintro (h | ⟨v, hv⟩)
      · exact ⟨e.2, Or.inl (by cases e; simp_all)⟩
      · exact ⟨v, Or.inr hv⟩
    · rintro ⟨v, h | hv⟩
      · exact Or.inl (by cases h; rfl)
      · exact Or.inr ⟨v, hv⟩

/-- C1: collapse_into is the specified two-source merge: with the incremental
fields absent it returns the full snapshot fields unchanged; otherwise any
produced output carries the union of the full storages with the incremental
storages of slot strictly greater than the full snapshot slot, and takes
write version, snapshot slot and bank hash info from the incremental record,
also when pruning leaves the incremental record with no storages. -/
theorem collapse_into_merge_spec {T : Type} (full : AccountsDbFields T) :
    (SnapshotAccountsDbFields.collapse_into ⟨full, none⟩ = .ok full) ∧
    (∀ incr out : AccountsDbFields T,
      SnapshotAccountsDbFields.collapse_into ⟨full, some incr⟩ = .ok out →
      out.storages = full.storages ++
        incr.storages.filter (fun p => decide (full.snapshot_slot < p.1)) ∧
      out.write_version = incr.write_version ∧
      out.snapshot_slot = incr.snapshot_slot ∧
      out.bank_hash_info = incr.bank_hash_info) := by
  refine ⟨rfl, ?_⟩
  intro incr out h
  unfold SnapshotAccountsDbFields.collapse_into at h
  simp only at h
  split at h
  · cases h
    exact ⟨rfl, rfl, rfl, rfl⟩
  · cases h

/-- Witness for C1 at a concrete input: the incremental entry at slot 9 is
pruned (9 is not above the full snapshot slot 10), the one at slot 11
survives, and the metadata is the incremental record's. -/
theorem collapse_into_merge_spec_witness :
    SnapshotAccountsDbFields.collapse_into
      (⟨⟨[(10, [1])], 3, 10, 7⟩, some ⟨[(9, [2]), (11, [3])], 4, 11, 8⟩⟩ :
        SnapshotAccountsDbFields Nat) =
      .ok ⟨[(10, [1]), (11, [3])], 4, 11, 8⟩ ∧
    (⟨[(10, [1]), (11, [3])], 4, 11, 8⟩ : AccountsDbFields Nat).storages =
      [(10, [1])] ++
        [(9, [2]), (11, [3])].filter (fun p => decide (10 < p.1)) :=
  ⟨rfl,
    ((collapse_into_merge_spec ⟨[(10, [1])], 3, 10, 7⟩).2
      ⟨[(9, [2]), (11, [3])], 4, 11, 8⟩ ⟨[(10, [1]), (11, [3])], 4, 11, 8⟩
      rfl).1⟩

/-- C2: with an incremental record present, collapse_into fails exactly when
some incremental slot strictly above the full snapshot slot is also a slot of
the full storages, and the only failure it produces is the
incompatible-snapshots error. -/
theorem collapse_into_incompatible_iff {T : Type}
    (full incr : AccountsDbFields T) :
    ((∃ e, SnapshotAccountsDbFields.collapse_into ⟨full, some incr⟩ =
        .error e) ↔
      ∃ s : Nat, full.snapshot_slot < s ∧
        containsKey incr.storages s = true ∧
        containsKey full.storages s = true) ∧
    (∀ e, SnapshotAccountsDbFields.collapse_into ⟨full, some incr⟩ =
        .error e → e = .incompatible) := by
  constructor
  · unfold SnapshotAccountsDbFields.collapse_into
    simp only
    split
    · rename_i hall
      rw [List.all_eq_true] at hall
      constructor
      · rintro ⟨e, he⟩
        cases he
      · rintro ⟨s, hs, hincr, hfull⟩
        obtain ⟨v, hv⟩ := (containsKey_eq_true_iff _ _).mp hincr
        have hmem : (s, v) ∈ incr.storages.filter
            (fun p => decide (full.snapshot_slot < p.1)) := by
          rw [List.mem_filter]
          exact ⟨hv, by simpa using hs⟩
        have := hall _ hmem
        simp only [Bool.not_eq_true'] at this
        rw [this] at hfull
        cases hfull
    · rename_i hall
      rw [List.all_eq_true] at hall
      push_neg at hall
      constructor
      · intro _
        obtain ⟨p, hp, hb⟩ := hall
        rw [List.mem_filter] at hp
        refine ⟨p.1, by simpa using hp.2, ?_, ?_⟩
        · exact (containsKey_eq_true_iff _ _).mpr ⟨p.2, by simpa using hp.1⟩
        · simpa [Bool.not_eq_true'] using hb
      · intro _
        exact ⟨.incompatible, rfl⟩
  · unfold SnapshotAccountsDbFields.collapse_into
    simp only
    split
    · intro e he
      cases he
    · intro e he
      cases he
      rfl

/-- Witness for C2 at a concrete input: slot 10 of the incremental record
survives pruning (10 is above the full snapshot slot 5) and collides with
slot 10 of the full storages, so collapse_into returns the
incompatible-snapshots error. -/
theorem collapse_into_incompatible_iff_witness :
    SnapshotAccountsDbFields.collapse_into
      (⟨⟨[(10, [1])], 3, 5, 7⟩, some ⟨[(10, [2])], 4, 7, 8⟩⟩ :
        SnapshotAccountsDbFields Nat) = .error .incompatible := by
  obtain ⟨e, he⟩ :=
    (collapse_into_incompatible_iff (T := Nat) ⟨[(10, [1])], 3, 5, 7⟩
      ⟨[(10, [2])], 4, 7, 8⟩).1.mpr ⟨10, by decide, by rfl, by rfl⟩
  have h2 :=
    (collapse_into_incompatible_iff (T := Nat) ⟨[(10, [1])], 3, 5, 7⟩
      ⟨[(10, [2])], 4, 7, 8⟩).2 e he
  rw [h2] at he
  exact he

/-! ## The bounded decoder -/

/-- Hard byte ceiling of the decoder, 32 GiB (source line 74). -/
def MAX_STREAM_SIZE : Nat := 32 * 1024 * 1024 * 1024

/-- Decode failure kinds named by the specification. -/
inductive DecodeFailure where
  | sizeLimit
  | malformed
  | unexpectedEof
  | trailingRejected
deriving DecidableEq, Repr

/-- Configuration assembled by the bincode options builder: an optional byte
limit, whether integers are fixed width rather than varint packed, and
whether bytes after the decoded value are tolerated. -/
structure BincodeConfig where
  byteLimit : Option Nat
  fixintEncoding : Bool
  allowTrailingBytes : Bool
deriving DecidableEq, Repr

/-- Modelled from the spec: bincode::options() of the external bincode crate,
the builder's starting point: no byte limit, varint integer encoding,
trailing bytes rejected. -/
def bincodeOptions : BincodeConfig := ⟨none, false, false⟩

/-- Modelled from the spec: with_limit installs a hard byte ceiling. -/
def BincodeConfig.with_limit (cfg : BincodeConfig) (n : Nat) : BincodeConfig :=
  { cfg with byteLimit := some n }

/-- Modelled from the spec: with_fixint_encoding selects fixed-width integer
encoding. -/
def BincodeConfig.with_fixint_encoding (cfg : BincodeConfig) : BincodeConfig :=
  { cfg with fixintEncoding := true }

/-- Modelled from the spec: allow_trailing_bytes tolerates bytes after the
decoded value. -/
def BincodeConfig.allow_trailing_bytes (cfg : BincodeConfig) : BincodeConfig :=
  { cfg with allowTrailingBytes := true }

/-- Abstract description of the logical payload at the front of a byte
stream: whether its bytes parse as the target type, and how many bytes the
encoded value occupies. -/
structure Payload where
  wellFormed : Bool
  length : Nat
deriving DecidableEq, Repr

/-- Modelled from the spec: outcome of one bincode decode under configuration
cfg, over a stream of streamLen bytes whose leading logical payload is p.
The size limit bounds the decoded bytes, a malformed payload is a decode
error, a stream shorter than the payload is an unexpected end of file, and
bytes past the payload fail only when trailing bytes are rejected. -/
def decodeResult (cfg : BincodeConfig) (p : Payload) (streamLen : Nat) :
    Except DecodeFailure Unit :=
  if (cfg.byteLimit.map (fun l => decide (l < p.length))).getD false then
    .error .sizeLimit
  else if !p.wellFormed then
    .error .malformed
  else if streamLen < p.length then
    .error .unexpectedEof
  else if !cfg.allowTrailingBytes && decide (p.length < streamLen) then
    .error .trailingRejected
  else
    .ok ()

/-- The single decoding entry point (source lines 180-190): bincode options
with the 32 GiB limit, fixed-width integers, and trailing bytes allowed. -/
def deserialize_from (p : Payload) (streamLen : Nat) :
    Except DecodeFailure Unit :=
  decodeResult
    (((bincodeOptions.with_limit MAX_STREAM_SIZE).with_fixint_encoding
      ).allow_trailing_bytes) p streamLen

/-- C6: deserialize_from decodes under a hard byte limit of exactly 32 times
1024 cubed bytes with fixed-width integer encoding and trailing bytes
tolerated: a well-formed payload within the limit decodes successfully for
every stream at least as long as the payload, while exceeding the limit,
malformed input, and a stream shorter than the payload fail with the
respective errors. -/
theorem deserialize_from_spec :
    ((bincodeOptions.with_limit MAX_STREAM_SIZE).with_fixint_encoding
      ).allow_trailing_bytes =
      ⟨some (32 * 1024 * 1024 * 1024), true, true⟩ ∧
    MAX_STREAM_SIZE = 32 * 1024 ^ 3 ∧
    (∀ p n, p.wellFormed = true → p.length ≤ MAX_STREAM_SIZE →
      p.length ≤ n → deserialize_from p n = .ok ()) ∧
    (∀ p n, MAX_STREAM_SIZE < p.length →
      deserialize_from p n = .error .sizeLimit) ∧
    (∀ p n, p.length ≤ MAX_STREAM_SIZE → p.wellFormed = false →
      deserialize_from p n = .error .malformed) ∧
    (∀ p n, p.length ≤ MAX_STREAM_SIZE → p.wellFormed = true →
      n < p.length → deserialize_from p n = .error .unexpectedEof) := by
  refine ⟨rfl, by norm_num [MAX_STREAM_SIZE], ?_, ?_, ?_, ?_⟩
  · intro p n hw hlim hn
    simp [deserialize_from, decodeResult, bincodeOptions,
      BincodeConfig.with_limit, BincodeConfig.with_fixint_encoding,
      BincodeConfig.allow_trailing_bytes, hw, Nat.not_lt.mpr hlim,
      Nat.not_lt.mpr hn]
  · intro p n hlim
    simp [deserialize_from, decodeResult, bincodeOptions,
      BincodeConfig.with_limit, BincodeConfig.with_fixint_encoding,
      BincodeConfig.allow_trailing_bytes, hlim]
  · intro p n hlim hw
    simp [deserialize_from, decodeResult, bincodeOptions,
      BincodeConfig.with_limit, BincodeConfig.with_fixint_encoding,
      BincodeConfig.allow_trailing_bytes, hw, Nat.not_lt.mpr hlim]
  · intro p n hlim hw hn
    simp [deserialize_from, decodeResult, bincodeOptions,
      BincodeConfig.with_limit, BincodeConfig.with_fixint_encoding,
      BincodeConfig.allow_trailing_bytes, hw, Nat.not_lt.mpr hlim, hn]

/-- Witness for C6 at concrete inputs: a 5-byte well-formed payload decodes
from a 9-byte stream (the 4 trailing bytes are tolerated), and a payload one
byte over the limit is a size-limit error. -/
theorem deserialize_from_spec_witness :
    deserialize_from ⟨true, 5⟩ 9 = .ok () ∧
    deserialize_from ⟨true, 32 * 1024 * 1024 * 1024 + 1⟩ 0 =
      .error .sizeLimit :=
  ⟨deserialize_from_spec.2.2.1 ⟨true, 5⟩ 9 rfl (by norm_num [MAX_STREAM_SIZE])
      (by norm_num),
    deserialize_from_spec.2.2.2.1 ⟨true, 32 * 1024 * 1024 * 1024 + 1⟩ 0
      (by norm_num [MAX_STREAM_SIZE])⟩

/-! ## Filesystem model and the remap loop -/

/-- Absolute path of an on-disk file: the parent directory (an opaque token)
joined with a file name, as built by parent(original).join(file_name). -/
structure FsPath where
  parent : Nat
  name : FileName
deriving DecidableEq, Repr

/-- Contents summary of one on-disk append-vec file: its byte length and the
number of account records it holds. -/
structure FileData where
  len : Nat
  numAccounts : Nat
deriving DecidableEq, Repr

/-- Filesystem state: an association list from paths to file data. -/
abbrev Fs := List (FsPath × FileData)

def fsLookup : Fs → FsPath → Option FileData
  | [], _ => none
  | e :: t, p => if e.1 = p then some e.2 else fsLookup t p

/-- True when a file exists at the path, the model of a successful
std::fs::metadata probe. -/
def fsContains (fs : Fs) (p : FsPath) : Bool :=
  (fsLookup fs p).isSome

/-- Modelled from the spec: std::fs::rename fails when the source file is
absent, and otherwise moves the file data from the source path to the
destination path, replacing any file already there. -/
def fsRename (fs : Fs) (src dst : FsPath) : Except SnapshotError Fs :=
  match fsLookup fs src with
  | none => .error .renameFailed
  | some d =>
    .ok ((fs.filter (fun e => decide (e.1 ≠ src))).filter
      (fun e => decide (e.1 ≠ dst)) ++ [(dst, d)])

/-- Largest append-vec id occurring in any file name of the filesystem; every
candidate id above it denotes a fresh path. -/
def maxFsId (fs : Fs) : Nat :=
  fs.foldr (fun e acc => max e.1.name.id acc) 0

theorem fsContains_le_maxFsId (fs : Fs) (p : FsPath)
    (h : fsContains fs p = true) : p.name.id ≤ maxFsId fs := by
  induction fs with
  | nil => simp [fsContains, fsLookup] at h
  | cons e t ih =>
    simp only [fsContains, fsLookup] at h
    have hcons : maxFsId (e :: t) = max e.1.name.id (maxFsId t) := rfl
    by_cases he : e.1 = p
    · subst he
      rw [hcons]
      exact Nat.le_max_left _ _
    · rw [if_neg he] at h
      rw [hcons]
      exact Nat.le_trans (ih h) (Nat.le_max_right _ _)

/-- State of the two shared atomic counters of the remap pass. -/
structure RemapState where
  nextId : Nat
  collisions : Nat
deriving DecidableEq, Repr

/-- One entry's allocation loop (source lines 465-487): fetch-add a candidate
id from the shared counter, accept it when it equals the entry's original id
or when no file exists at the candidate path, and otherwise count a collision
and retry. The fuel argument bounds the iterations; remapLoop_isSome shows
that maxFsId supplies enough fuel on every input. -/
def remapLoop (fuel : Nat) (entryId : Nat) (slot : Nat)
    (parent : Nat) (fs : Fs) (st : RemapState) :
    Option (Nat × FsPath × RemapState) :=
  match fuel with
  | 0 => none
  | fuel + 1 =>
    let c := st.nextId
    let path : FsPath := ⟨parent, ⟨slot, c⟩⟩
    if entryId = c ∨ fsContains fs path = false then
      some (c, path, ⟨c + 1, st.collisions⟩)
    else
      remapLoop fuel entryId slot parent fs ⟨c + 1, st.collisions + 1⟩

theorem remapLoop_isSome (entryId : Nat) (slot : Nat) (parent : Nat)
    (fs : Fs) :
    ∀ fuel st, maxFsId fs + 1 - st.nextId < fuel →
      (remapLoop fuel entryId slot parent fs st).isSome = true := by
  intro fuel
  induction fuel with
  | zero => intro st h; exact absurd h (Nat.not_lt_zero _)
  | succ fuel ih =>
    intro st h
    rw [remapLoop]
    split
    · rfl
    · rename_i hcond
      push_neg at hcond
      have hc : fsContains fs ⟨parent, ⟨slot, st.nextId⟩⟩ = true := by
        have := hcond.2
        revert this
        cases fsContains fs ⟨parent, ⟨slot, st.nextId⟩⟩ <;> simp
      have hle : st.nextId ≤ maxFsId fs := fsContains_le_maxFsId fs _ hc
      refine ih ⟨st.nextId + 1, st.collisions + 1⟩ ?_
      show maxFsId fs + 1 - (st.nextId + 1) < fuel
      omega

/-- The allocation loop run with always-sufficient fuel: total on every
input. -/
def remapEntry (entryId : Nat) (slot : Nat) (parent : Nat) (fs : Fs)
    (st : RemapState) : Nat × FsPath × RemapState :=
  (remapLoop (maxFsId fs + 2) entryId slot parent fs st).get
    (remapLoop_isSome entryId slot parent fs (maxFsId fs + 2) st (by omega))

theorem remapLoop_spec (entryId : Nat) (slot : Nat) (parent : Nat)
    (fs : Fs) :
    ∀ fuel st c p st',
      remapLoop fuel entryId slot parent fs st = some (c, p, st') →
      st.nextId ≤ c ∧ p = ⟨parent, ⟨slot, c⟩⟩ ∧ st'.nextId = c + 1 ∧
      st'.collisions = st.collisions + (c - st.nextId) ∧
      (entryId = c ∨ fsContains fs ⟨parent, ⟨slot, c⟩⟩ = false) ∧
      (∀ k, st.nextId ≤ k → k < c →
        entryId ≠ k ∧ fsContains fs ⟨parent, ⟨slot, k⟩⟩ = true) := by
  intro fuel
  induction fuel with
  | zero => intro st c p st' h; cases h
  | succ fuel ih =>
    intro st c p st' h
    rw [remapLoop] at h
    split at h
    · rename_i hcond
      cases h
      refine ⟨Nat.le_refl _, rfl, rfl, by simp, hcond, ?_⟩
      intro k h1 h2
      omega
    · rename_i hcond
      push_neg at hcond
      have hc : fsContains fs ⟨parent, ⟨slot, st.nextId⟩⟩ = true := by
        have := hcond.2
        revert this
        cases fsContains fs ⟨parent, ⟨slot, st.nextId⟩⟩ <;> simp
      obtain ⟨h1, h2, h3, h4, h5, h6⟩ := ih ⟨st.nextId + 1, st.collisions + 1⟩
        c p st' h
      simp only at h1 h4
      refine ⟨by omega, h2, h3, by omega, h5, ?_⟩
      intro k hk1 hk2
      rcases Nat.eq_or_lt_of_le hk1 with he | hlt
      · subst he
        exact ⟨hcond.1, hc⟩
      · exact h6 k hlt hk2

theorem remapEntry_spec (entryId : Nat) (slot : Nat) (parent : Nat)
    (fs : Fs) (st : RemapState) (c : Nat) (p : FsPath)
    (st' : RemapState) (h : remapEntry entryId slot parent fs st = (c, p, st')) :
    st.nextId ≤ c ∧ p = ⟨parent, ⟨slot, c⟩⟩ ∧ st'.nextId = c + 1 ∧
    st'.collisions = st.collisions + (c - st.nextId) ∧
    (entryId = c ∨ fsContains fs ⟨parent, ⟨slot, c⟩⟩ = false) ∧
    (∀ k, st.nextId ≤ k → k < c →
      entryId ≠ k ∧ fsContains fs ⟨parent, ⟨slot, k⟩⟩ = true) := by
  have hsome : remapLoop (maxFsId fs + 2) entryId slot parent fs st =
      some (c, p, st') := by
    rw [← h]
    exact (Option.some_get _).symm
  exact remapLoop_spec entryId slot parent fs _ st c p st' hsome

/-! ## Storage reconstruction -/

/-- In-memory storage entry built by AccountStorageEntry::new_existing: the
slot, the (possibly remapped) id, the append-vec length and the account
count read from the file. -/
structure AccountStorageEntry where
  slot : Nat
  id : Nat
  accountsLen : Nat
  num_accounts : Nat
deriving DecidableEq, Repr

/-- Per-slot storage map keyed by append-vec id. -/
abbrev SlotStorage := List (Nat × AccountStorageEntry)

/-- Insertion into an association list, mirroring HashMap::insert: any prior
binding of the key is replaced. -/
def insertMap {α : Type} (m : List (Nat × α)) (k : Nat) (v : α) :
    List (Nat × α) :=
  m.filter (fun p => decide (p.1 ≠ k)) ++ [(k, v)]

/-- Lookup in an association list keyed by file names, mirroring
HashMap::get on the unpacked append-vec map. -/
def lookupMap {α : Type} : List (FileName × α) → FileName → Option α
  | [], _ => none
  | e :: t, k => if e.1 = k then some e.2 else lookupMap t k

/-- Modelled from the spec: AppendVec::new_from_file (external append_vec
module) opens the file at the path, checks the on-disk length against the
expected current length, and yields the accounts data and count. -/
def AppendVec.new_from_file (fs : Fs) (p : FsPath) (current_len : Nat) :
    Except SnapshotError FileData :=
  match fsLookup fs p with
  | none => .error .openFailed
  | some d => if d.len = current_len then .ok d else .error .openFailed

/-- reconstruct_single_storage of the source (lines 382-400): open the
append-vec at the path and insert a fresh entry keyed by the remapped id
(falling back to the wire id when no remap is given). -/
def reconstruct_single_storage (fs : Fs) (slot : Nat)
    (append_vec_path : FsPath)
    (storage_entry : SerializableAccountStorageEntry)
    (remapped_append_vec_id : Option Nat)
    (new_slot_storage : SlotStorage) : Except SnapshotError SlotStorage :=
  let append_vec_id := remapped_append_vec_id.getD storage_entry.id
  match AppendVec.new_from_file fs append_vec_path
      storage_entry.current_len with
  | .error e => .error e
  | .ok d =>
    .ok (insertMap new_slot_storage append_vec_id
      ⟨slot, append_vec_id, d.len, d.numAccounts⟩)

/-- Shared mutable state of the reconstruction pass: the filesystem and the
two atomic counters. It survives a worker error, as the side effects of the
source do. -/
structure WorkState where
  fs : Fs
  next_append_vec_id : Nat
  num_collisions : Nat
deriving DecidableEq, Repr

/-- One (slot, storage entry) step of the reconstruction loop (source lines
453-500): locate the unpacked file by its canonical name, run the allocation
loop, rename the file when the accepted id differs from the wire id, then
open the append-vec and install the entry. -/
def processStorageEntry (unpacked_append_vec_map : List (FileName × FsPath))
    (slot : Nat) (storage_entry : SerializableAccountStorageEntry)
    (ws : WorkState) (m : SlotStorage) :
    WorkState × Except SnapshotError SlotStorage :=
  let file_name := FileName.mk slot storage_entry.id
  match lookupMap unpacked_append_vec_map file_name with
  | none => (ws, .error (.notFound file_name))
  | some append_vec_path =>
    match remapEntry storage_entry.id slot append_vec_path.parent ws.fs
        ⟨ws.next_append_vec_id, ws.num_collisions⟩ with
    | (remapped_append_vec_id, remapped_append_vec_path, st) =>
      let ws1 : WorkState := ⟨ws.fs, st.nextId, st.collisions⟩
      if storage_entry.id = remapped_append_vec_id then
        match reconstruct_single_storage ws1.fs slot
            remapped_append_vec_path storage_entry
            (some remapped_append_vec_id) m with
        | .error e => (ws1, .error e)
        | .ok m2 => (ws1, .ok m2)
      else
        match fsRename ws1.fs append_vec_path remapped_append_vec_path with
        | .error e => (ws1, .error e)
        | .ok fs2 =>
          let ws2 : WorkState := ⟨fs2, ws1.next_append_vec_id,
            ws1.num_collisions⟩
          match reconstruct_single_storage ws2.fs slot
              remapped_append_vec_path storage_entry
              (some remapped_append_vec_id) m with
          | .error e => (ws2, .error e)
          | .ok m2 => (ws2, .ok m2)

/-- One slot's worker: entries processed in wire order, stopping at the first
error. -/
def processSlotEntries (unpacked_append_vec_map : List (FileName × FsPath))
    (slot : Nat) :
    List SerializableAccountStorageEntry → WorkState → SlotStorage →
    WorkState × Except SnapshotError SlotStorage
  | [], ws, m => (ws, .ok m)
  | e :: rest, ws, m =>
    match processStorageEntry unpacked_append_vec_map slot e ws m with
    | (ws1, .ok m1) => processSlotEntries unpacked_append_vec_map slot rest
        ws1 m1
    | (ws1, .error err) => (ws1, .error err)

/-- The whole reconstruction pass over the combined slot sequence,
sequentialised; the parallel source shares only the two counters and the
read-only unpacked map between workers, and the first worker error is the
pass's result. -/
def processAllSlots (unpacked_append_vec_map : List (FileName × FsPath)) :
    List (Nat × List SerializableAccountStorageEntry) → WorkState →
    List (Nat × SlotStorage) →
    WorkState × Except SnapshotError (List (Nat × SlotStorage))
  | [], ws, acc => (ws, .ok acc)
  | (slot, entries) :: rest, ws, acc =>
    match processSlotEntries unpacked_append_vec_map slot entries ws [] with
    | (ws1, .ok m1) => processAllSlots unpacked_append_vec_map rest ws1
        (acc ++ [(slot, m1)])
    | (ws1, .error err) => (ws1, .error err)

/-- Total number of storage entries across all slots of the combined
fields. -/
def totalEntries {T : Type} (storages : List (Nat × List T)) : Nat :=
  (storages.map (fun p => p.2.length)).sum

/-- The fields of AccountsDb that the reconstruction touches. -/
structure AccountsDb where
  bank_hashes : List (Nat × BankHashInfo)
  storage : List (Nat × SlotStorage)
  next_id : Nat
  write_version : Nat
deriving DecidableEq, Repr

/-- Modelled from the spec: AccountsDb::new_with_config (external accounts_db
module) creates an empty AccountsDb; its registries start empty and its
counters at zero. -/
def AccountsDb.new_with_config : AccountsDb := ⟨[], [], 0, 0⟩

/-- Assembly of the deserialized data into the db (source lines 523-539):
register the bank hash info under the snapshot slot, extend the storage map,
store the final counter into next_id, and fetch-add the snapshot version
into the write version (wrapping u64 addition). -/
def assembleDb (accounts_db : AccountsDb) (storage : List (Nat × SlotStorage))
    (next_append_vec_id : Nat) (snapshot_version : Nat) (snapshot_slot : Nat)
    (snapshot_bank_hash_info : BankHashInfo) : AccountsDb :=
  { accounts_db with
    bank_hashes := insertMap accounts_db.bank_hashes snapshot_slot
      snapshot_bank_hash_info
    storage := accounts_db.storage ++ storage
    next_id := next_append_vec_id
    write_version :=
      (accounts_db.write_version + snapshot_version) % U64_MOD }

/-- reconstruct_accountsdb_from_fields (source lines 403-573), sequentialised:
collapse the snapshot fields, run the remap-and-open pass over every slot,
drop slots left with no storages, fail loudly when nothing remains or when
the id ceiling is crossed, and assemble the db. The returned pair carries
the db and the final collision count (the datapoint telemetry of the
source). -/
def reconstruct_accountsdb_from_fields
    (snapshot_accounts_db_fields :
      SnapshotAccountsDbFields SerializableAccountStorageEntry)
    (unpacked_append_vec_map : List (FileName × FsPath)) (fs0 : Fs) :
    Except SnapshotError (AccountsDb × Nat) :=
  match snapshot_accounts_db_fields.collapse_into with
  | .error e => .error e
  | .ok fields =>
    match processAllSlots unpacked_append_vec_map fields.storages
        ⟨fs0, 0, 0⟩ [] with
    | (_, .error e) => .error e
    | (ws, .ok storageAll) =>
      let storage := storageAll.filter (fun p => !p.2.isEmpty)
      if storage.isEmpty then .error .panicEmptyStorage
      else
        let next_append_vec_id := ws.next_append_vec_id
        let max_append_vec_id := next_append_vec_id - 1
        if max_append_vec_id ≤ APPEND_VEC_ID_MAX / 2 then
          .ok (assembleDb AccountsDb.new_with_config storage
            next_append_vec_id fields.write_version fields.snapshot_slot
            fields.bank_hash_info, ws.num_collisions)
        else .error .panicMaxId

/-! ## Invariants of the reconstruction pass -/

theorem mem_insertMap {α : Type} (m : List (Nat × α)) (k : Nat) (v : α)
    (ke : Nat × α) (h : ke ∈ insertMap m k v) : ke ∈ m ∨ ke = (k, v) := by
  simp only [insertMap, List.mem_append, List.mem_filter,
    List.mem_singleton] at h
  rcases h with ⟨hm, -⟩ | hv
  · exact Or.inl hm
  · exact Or.inr hv

theorem reconstruct_single_storage_ok_mem (fs : Fs) (slot : Nat)
    (path : FsPath) (e : SerializableAccountStorageEntry)
    (rid : Option Nat) (m m2 : SlotStorage)
    (h : reconstruct_single_storage fs slot path e rid m = .ok m2) :
    ∀ ke ∈ m2, ke ∈ m ∨ ke.1 = rid.getD e.id := by
  unfold reconstruct_single_storage at h
  cases hnf : AppendVec.new_from_file fs path e.current_len with
  | error err => rw [hnf] at h; cases h
  | ok d =>
    rw [hnf] at h
    cases h
    intro ke hke
    rcases mem_insertMap _ _ _ _ hke with hm | hv
    · exact Or.inl hm
    · exact Or.inr (by rw [hv])

theorem processStorageEntry_ok (unp : List (FileName × FsPath)) (slot : Nat)
    (e : SerializableAccountStorageEntry) (ws : WorkState) (m : SlotStorage)
    (ws' : WorkState) (m' : SlotStorage)
    (h : processStorageEntry unp slot e ws m = (ws', .ok m')) :
    ws.next_append_vec_id < ws'.next_append_vec_id ∧
    ws'.next_append_vec_id =
      ws.next_append_vec_id + 1 + (ws'.num_collisions - ws.num_collisions) ∧
    ws.num_collisions ≤ ws'.num_collisions ∧
    (∀ ke ∈ m', ke ∈ m ∨ ke.1 < ws'.next_append_vec_id) := by
  unfold processStorageEntry at h
  dsimp only at h
  cases hlook : lookupMap unp (FileName.mk slot e.id) with
  | none =>
    rw [hlook] at h
    cases h
  | some path =>
    rw [hlook] at h
    dsimp only at h
    rcases hre : remapEntry e.id slot path.parent ws.fs
        ⟨ws.next_append_vec_id, ws.num_collisions⟩ with ⟨c, rp, st⟩
    rw [hre] at h
    dsimp only at h
    obtain ⟨h1, -, h3, h4, -, -⟩ := remapEntry_spec _ _ _ _ _ _ _ _ hre
    dsimp only at h1 h4
    have hmem : ∀ (mend : SlotStorage),
        (∀ ke ∈ mend, ke ∈ m ∨ ke.1 = c) →
        ∀ ke ∈ mend, ke ∈ m ∨ ke.1 < st.nextId := by
      intro mend hm ke hke
      rcases hm ke hke with hin | hc
      · exact Or.inl hin
      · exact Or.inr (by omega)
    split at h
    · cases hrs : reconstruct_single_storage ws.fs slot rp e (some c) m with
      | error err => rw [hrs] at h; cases h
      | ok m2 =>
        rw [hrs] at h
        rw [Prod.mk.injEq] at h
        obtain ⟨hws, hm⟩ := h
        injection hm with hmm
        subst hmm
        subst hws
        dsimp only
        refine ⟨by omega, by omega, by omega, ?_⟩
        exact hmem m2 (reconstruct_single_storage_ok_mem _ _ _ _ _ _ _ hrs)
    · cases hrn : fsRename ws.fs path rp with
      | error err => rw [hrn] at h; cases h
      | ok fs2 =>
        rw [hrn] at h
        dsimp only at h
        cases hrs : reconstruct_single_storage fs2 slot rp e (some c) m with
        | error err => rw [hrs] at h; cases h
        | ok m2 =>
          rw [hrs] at h
          rw [Prod.mk.injEq] at h
          obtain ⟨hws, hm⟩ := h
          injection hm with hmm
          subst hmm
          subst hws
          dsimp only
          refine ⟨by omega, by omega, by omega, ?_⟩
          exact hmem m2 (reconstruct_single_storage_ok_mem _ _ _ _ _ _ _ hrs)

theorem processSlotEntries_ok (unp : List (FileName × FsPath)) (slot : Nat) :
    ∀ (entries : List SerializableAccountStorageEntry) (ws : WorkState)
      (m : SlotStorage) (ws' : WorkState) (m' : SlotStorage),
      processSlotEntries unp slot entries ws m = (ws', .ok m') →
      ws.next_append_vec_id ≤ ws'.next_append_vec_id ∧
      ws'.next_append_vec_id =
        ws.next_append_vec_id + entries.length +
          (ws'.num_collisions - ws.num_collisions) ∧
      ws.num_collisions ≤ ws'.num_collisions ∧
      (∀ ke ∈ m', ke ∈ m ∨ ke.1 < ws'.next_append_vec_id) := by
  intro entries
  induction entries with
  | nil =>
    intro ws m ws' m' h
    simp only [processSlotEntries] at h
    injection h with h1 h2
    cases h1
    injection h2 with h3
    cases h3
    exact ⟨Nat.le_refl _, by simp, Nat.le_refl _, fun ke hke => Or.inl hke⟩
  | cons e rest ih =>
    intro ws m ws' m' h
    simp only [processSlotEntries] at h
    rcases hstep : processStorageEntry unp slot e ws m with ⟨ws1, res⟩
    rw [hstep] at h
    cases res with
    | error err => cases h
    | ok m1 =>
      obtain ⟨s1, s2, s3, s4⟩ := processStorageEntry_ok _ _ _ _ _ _ _ hstep
      obtain ⟨r1, r2, r3, r4⟩ := ih ws1 m1 ws' m' h
      have hlen : (e :: rest).length = rest.length + 1 := rfl
      refine ⟨by omega, by omega, by omega, ?_⟩
      intro ke hke
      rcases r4 ke hke with hm1 | hlt
      · rcases s4 ke hm1 with hm | hlt1
        · exact Or.inl hm
        · exact Or.inr (by omega)
      · exact Or.inr hlt

theorem processAllSlots_ok (unp : List (FileName × FsPath)) :
    ∀ (slots : List (Nat × List SerializableAccountStorageEntry))
      (ws : WorkState) (acc : List (Nat × SlotStorage)) (ws' : WorkState)
      (acc' : List (Nat × SlotStorage)),
      processAllSlots unp slots ws acc = (ws', .ok acc') →
      ws.next_append_vec_id ≤ ws'.next_append_vec_id ∧
      ws'.next_append_vec_id =
        ws.next_append_vec_id + totalEntries slots +
          (ws'.num_collisions - ws.num_collisions) ∧
      ws.num_collisions ≤ ws'.num_collisions ∧
      (∀ sm ∈ acc', sm ∈ acc ∨
        ∀ ke ∈ sm.2, ke.1 < ws'.next_append_vec_id) := by
  intro slots
  induction slots with
  | nil =>
    intro ws acc ws' acc' h
    simp only [processAllSlots] at h
    injection h with h1 h2
    cases h1
    injection h2 with h3
    cases h3
    exact ⟨Nat.le_refl _, by simp [totalEntries], Nat.le_refl _,
      fun sm hsm => Or.inl hsm⟩
  | cons se rest ih =>
    rcases se with ⟨slot, entries⟩
    intro ws acc ws' acc' h
    simp only [processAllSlots] at h
    rcases hslot : processSlotEntries unp slot entries ws [] with ⟨ws1, res⟩
    rw [hslot] at h
    cases res with
    | error err => cases h
    | ok m1 =>
      obtain ⟨s1, s2, s3, s4⟩ := processSlotEntries_ok _ _ _ _ _ _ _ hslot
      obtain ⟨r1, r2, r3, r4⟩ := ih ws1 (acc ++ [(slot, m1)]) ws' acc' h
      have htot : totalEntries ((slot, entries) :: rest) =
          entries.length + totalEntries rest := by
        simp [totalEntries]
      refine ⟨by omega, by omega, by omega, ?_⟩
      intro sm hsm
      rcases r4 sm hsm with hin | hids
      · rcases List.mem_append.mp hin with hacc | hnew
        · exact Or.inl hacc
        · refine Or.inr ?_
          intro ke hke
          rw [List.mem_singleton] at hnew
          subst hnew
          rcases s4 ke hke with hnil | hlt
          · cases hnil
          · omega
      · exact Or.inr hids

theorem reconstruct_ok_cases
    (snap : SnapshotAccountsDbFields SerializableAccountStorageEntry)
    (unp : List (FileName × FsPath)) (fs0 : Fs) (db : AccountsDb)
    (coll : Nat)
    (h : reconstruct_accountsdb_from_fields snap unp fs0 = .ok (db, coll)) :
    ∃ fields ws storageAll,
      snap.collapse_into = .ok fields ∧
      processAllSlots unp fields.storages ⟨fs0, 0, 0⟩ [] =
        (ws, .ok storageAll) ∧
      db = assembleDb AccountsDb.new_with_config
        (storageAll.filter (fun p => !p.2.isEmpty)) ws.next_append_vec_id
        fields.write_version fields.snapshot_slot fields.bank_hash_info ∧
      coll = ws.num_collisions ∧
      (storageAll.filter (fun p => !p.2.isEmpty)).isEmpty = false ∧
      ws.next_append_vec_id - 1 ≤ APPEND_VEC_ID_MAX / 2 := by
  unfold reconstruct_accountsdb_from_fields at h
  cases hc : snap.collapse_into with
  | error err => rw [hc] at h; cases h
  | ok fields =>
    rw [hc] at h
    dsimp only at h
    rcases hp : processAllSlots unp fields.storages ⟨fs0, 0, 0⟩ [] with
      ⟨ws, res⟩
    rw [hp] at h
    cases res with
    | error err => cases h
    | ok storageAll =>
      dsimp only at h
      split at h
      · cases h
      · split at h
        · rename_i hemp hmax
          injection h with h2
          injection h2 with h3 h4
          cases h3
          cases h4
          refine ⟨fields, ws, storageAll, rfl, hp, rfl, rfl, ?_, hmax⟩
          revert hemp
          cases (storageAll.filter (fun p => !p.2.isEmpty)).isEmpty <;> simp
        · cases h

/-- C3: for every successful run of reconstruct_accountsdb_from_fields the
stored next_id equals the final value of the shared allocation counter, which
counts one per storage entry plus one per collision retry; the asserted bound
next_id - 1 ≤ usize::MAX / 2 holds; and every id installed in the storage map
is strictly below next_id and at most usize::MAX / 2. -/
theorem reconstruct_next_id_invariants
    (snap : SnapshotAccountsDbFields SerializableAccountStorageEntry)
    (unp : List (FileName × FsPath)) (fs0 : Fs)
    (fields : AccountsDbFields SerializableAccountStorageEntry)
    (db : AccountsDb) (coll : Nat)
    (hc : snap.collapse_into = .ok fields)
    (h : reconstruct_accountsdb_from_fields snap unp fs0 = .ok (db, coll)) :
    db.next_id = totalEntries fields.storages + coll ∧
    db.next_id - 1 ≤ APPEND_VEC_ID_MAX / 2 ∧
    (∀ sm ∈ db.storage, ∀ ke ∈ sm.2,
      ke.1 < db.next_id ∧ ke.1 ≤ APPEND_VEC_ID_MAX / 2) := by
  obtain ⟨fields2, ws, storageAll, hc2, hp, hdb, hcoll, -, hmax⟩ :=
    reconstruct_ok_cases snap unp fs0 db coll h
  rw [hc] at hc2
  injection hc2 with hf
  subst hf
  obtain ⟨-, a2, a3, a4⟩ := processAllSlots_ok unp fields.storages
    ⟨fs0, 0, 0⟩ [] ws storageAll hp
  dsimp only at a2 a3
  subst hdb
  subst hcoll
  dsimp only [assembleDb, AccountsDb.new_with_config]
  refine ⟨by omega, hmax, ?_⟩
  intro sm hsm ke hke
  rw [List.nil_append] at hsm
  have hsm2 : sm ∈ storageAll := (List.mem_filter.mp hsm).1
  rcases a4 sm hsm2 with hnil | hids
  · cases hnil
  · have hlt := hids ke hke
    exact ⟨hlt, by omega⟩

/-- Witness for C3 at a concrete successful run: one slot and one storage
entry whose id 7 is remapped to 0; the stored next_id 1 is the one accepted
allocation plus zero collisions. -/
theorem reconstruct_next_id_invariants_witness :
    (⟨⟨[(10, [⟨7, 4⟩])], 3, 10, 5⟩, none⟩ :
      SnapshotAccountsDbFields SerializableAccountStorageEntry
      ).collapse_into = .ok ⟨[(10, [⟨7, 4⟩])], 3, 10, 5⟩ ∧
    reconstruct_accountsdb_from_fields
      ⟨⟨[(10, [⟨7, 4⟩])], 3, 10, 5⟩, none⟩ [(⟨10, 7⟩, ⟨0, ⟨10, 7⟩⟩)]
      [(⟨0, ⟨10, 7⟩⟩, ⟨4, 2⟩)] =
      .ok (⟨[(10, 5)], [(10, [(0, ⟨10, 0, 4, 2⟩)])], 1, 3⟩, 0) ∧
    (⟨[(10, 5)], [(10, [(0, ⟨10, 0, 4, 2⟩)])], 1, 3⟩ : AccountsDb).next_id =
      totalEntries (T := SerializableAccountStorageEntry)
        [(10, [⟨7, 4⟩])] + 0 :=
  ⟨rfl, rfl,
    (reconstruct_next_id_invariants ⟨⟨[(10, [⟨7, 4⟩])], 3, 10, 5⟩, none⟩
      [(⟨10, 7⟩, ⟨0, ⟨10, 7⟩⟩)] [(⟨0, ⟨10, 7⟩⟩, ⟨4, 2⟩)]
      ⟨[(10, [⟨7, 4⟩])], 3, 10, 5⟩
      ⟨[(10, 5)], [(10, [(0, ⟨10, 0, 4, 2⟩)])], 1, 3⟩ 0 rfl rfl).1⟩

theorem processAllSlots_empty (unp : List (FileName × FsPath)) :
    ∀ (slots : List (Nat × List SerializableAccountStorageEntry))
      (ws : WorkState) (acc : List (Nat × SlotStorage)),
      (∀ se ∈ slots, se.2 = ([] : List SerializableAccountStorageEntry)) →
      processAllSlots unp slots ws acc =
        (ws, .ok (acc ++ slots.map (fun se => (se.1, ([] : SlotStorage))))) := by
  intro slots
  induction slots with
  | nil => intro ws acc _; simp [processAllSlots]
  | cons se rest ih =>
    rcases se with ⟨slot, entries⟩
    intro ws acc hall
    have hse : entries = [] := hall (slot, entries) (List.mem_cons_self _ _)
    subst hse
    simp only [processAllSlots, processSlotEntries]
    rw [ih ws (acc ++ [(slot, [])])
      (fun se hse => hall se (List.mem_cons_of_mem _ hse))]
    simp

/-- C5: slots whose reconstructed inner map is empty are dropped, and a
reconstruction left with no storage at all aborts with the
panic-empty-storage assertion rather than returning an empty db: every
successful run yields a non-empty storage map all of whose inner maps are
non-empty, and an input whose collapsed fields carry only empty entry lists
makes the run fail with panicEmptyStorage. -/
theorem reconstruct_storage_nonempty
    (snap : SnapshotAccountsDbFields SerializableAccountStorageEntry)
    (unp : List (FileName × FsPath)) (fs0 : Fs) :
    (∀ db coll,
      reconstruct_accountsdb_from_fields snap unp fs0 = .ok (db, coll) →
      db.storage ≠ [] ∧ ∀ sm ∈ db.storage, sm.2 ≠ []) ∧
    (∀ fields : AccountsDbFields SerializableAccountStorageEntry,
      snap.collapse_into = .ok fields →
      (∀ se ∈ fields.storages,
        se.2 = ([] : List SerializableAccountStorageEntry)) →
      reconstruct_accountsdb_from_fields snap unp fs0 =
        .error .panicEmptyStorage) := by
  constructor
  · intro db coll h
    obtain ⟨fields, ws, storageAll, -, -, hdb, -, hemp, -⟩ :=
      reconstruct_ok_cases snap unp fs0 db coll h
    subst hdb
    dsimp only [assembleDb, AccountsDb.new_with_config]
    rw [List.nil_append]
    constructor
    · intro hnil
      rw [hnil] at hemp
      cases hemp
    · intro sm hsm
      have := (List.mem_filter.mp hsm).2
      intro hnil
      rw [hnil] at this
      cases this
  · intro fields hcol hall
    unfold reconstruct_accountsdb_from_fields
    rw [hcol]
    dsimp only
    rw [processAllSlots_empty unp fields.storages ⟨fs0, 0, 0⟩ [] hall]
    dsimp only
    have hfil : ((([] : List (Nat × SlotStorage)) ++
        fields.storages.map (fun se => (se.1, ([] : SlotStorage)))).filter
        (fun p => !p.2.isEmpty)) = [] := by
      rw [List.nil_append, List.filter_eq_nil_iff]
      intro a ha
      obtain ⟨se, -, hse⟩ := List.mem_map.mp ha
      subst hse
      simp
    rw [hfil]
    rfl

/-- Witness for C5: the storage map of the concrete successful run is
non-empty with non-empty inner maps, and an input carrying one slot with an
empty entry list aborts with the empty-storage panic. -/
theorem reconstruct_storage_nonempty_witness :
    ((⟨[(10, 5)], [(10, [(0, ⟨10, 0, 4, 2⟩)])], 1, 3⟩ : AccountsDb).storage ≠
      [] ∧
      ∀ sm ∈ (⟨[(10, 5)], [(10, [(0, ⟨10, 0, 4, 2⟩)])], 1, 3⟩ :
        AccountsDb).storage, sm.2 ≠ []) ∧
    reconstruct_accountsdb_from_fields
      ⟨⟨[(10, ([] : List SerializableAccountStorageEntry))], 3, 10, 5⟩, none⟩
      [] [] = .error .panicEmptyStorage :=
  ⟨(reconstruct_storage_nonempty ⟨⟨[(10, [⟨7, 4⟩])], 3, 10, 5⟩, none⟩
      [(⟨10, 7⟩, ⟨0, ⟨10, 7⟩⟩)] [(⟨0, ⟨10, 7⟩⟩, ⟨4, 2⟩)]).1
      ⟨[(10, 5)], [(10, [(0, ⟨10, 0, 4, 2⟩)])], 1, 3⟩ 0 rfl,
    (reconstruct_storage_nonempty
      ⟨⟨[(10, ([] : List SerializableAccountStorageEntry))], 3, 10, 5⟩, none⟩
      [] []).2 ⟨[(10, [])], 3, 10, 5⟩ rfl
      (by intro se hse; rw [List.mem_singleton] at hse; rw [hse])⟩

/-- C7: when the canonical file name computed from the slot and the entry's
wire id is absent from the read-only unpacked map, the worker returns the
not-found error with the shared state untouched (no allocation, no rename),
the slot worker stops there, and when that entry is the first one processed
the error is the result of the whole reconstruction. -/
theorem missing_file_not_found (unp : List (FileName × FsPath)) (slot : Nat)
    (e : SerializableAccountStorageEntry) (ws : WorkState) (m : SlotStorage)
    (h : lookupMap unp (FileName.mk slot e.id) = none) :
    processStorageEntry unp slot e ws m =
      (ws, .error (.notFound (FileName.mk slot e.id))) ∧
    (∀ rest, processSlotEntries unp slot (e :: rest) ws m =
      (ws, .error (.notFound (FileName.mk slot e.id)))) ∧
    (∀ (snap : SnapshotAccountsDbFields SerializableAccountStorageEntry)
      (fields : AccountsDbFields SerializableAccountStorageEntry)
      (rest : List SerializableAccountStorageEntry)
      (restSlots : List (Nat × List SerializableAccountStorageEntry))
      (fs0 : Fs),
      snap.collapse_into = .ok fields →
      fields.storages = (slot, e :: rest) :: restSlots →
      reconstruct_accountsdb_from_fields snap unp fs0 =
        .error (.notFound (FileName.mk slot e.id))) := by
  have key : ∀ (ws2 : WorkState) (m2 : SlotStorage),
      processStorageEntry unp slot e ws2 m2 =
        (ws2, .error (.notFound (FileName.mk slot e.id))) := by
    intro ws2 m2
    unfold processStorageEntry
    dsimp only
    rw [h]
  refine ⟨key ws m, ?_, ?_⟩
  · intro rest
    simp only [processSlotEntries]
    rw [key ws m]
  · intro snap fields rest restSlots fs0 hcol hst
    unfold reconstruct_accountsdb_from_fields
    rw [hcol]
    dsimp only
    rw [hst]
    simp only [processAllSlots, processSlotEntries]
    rw [key ⟨fs0, 0, 0⟩ []]

/-- Witness for C7 at a concrete input: the unpacked map is empty, so the
file name of entry id 7 at slot 10 is missing and the worker returns the
not-found error leaving the state untouched. -/
theorem missing_file_not_found_witness :
    processStorageEntry [] 10 ⟨7, 4⟩ ⟨[], 0, 0⟩ [] =
      (⟨[], 0, 0⟩, .error (.notFound ⟨10, 7⟩)) :=
  (missing_file_not_found [] 10 ⟨7, 4⟩ ⟨[], 0, 0⟩ [] rfl).1

/-- C4: every storage entry draws candidate ids by fetch-add from the shared
counter: an accepted candidate c satisfies c equal to the wire id or no file
at the candidate path (and equality alone suffices, regardless of the
filesystem), every candidate drawn before c was rejected because it differed
from the wire id while a file sat at its path, each rejection incremented the
collision counter, and after acceptance the file is renamed to the candidate
path exactly when c differs from the wire id. -/
theorem remap_alloc_rename_spec (entryId slot parent : Nat) (fs : Fs)
    (st : RemapState) (c : Nat) (p : FsPath) (st' : RemapState)
    (h : remapEntry entryId slot parent fs st = (c, p, st')) :
    (st.nextId ≤ c ∧ st'.nextId = c + 1 ∧ p = ⟨parent, ⟨slot, c⟩⟩) ∧
    (entryId = c ∨ fsContains fs ⟨parent, ⟨slot, c⟩⟩ = false) ∧
    (∀ k, st.nextId ≤ k → k < c →
      entryId ≠ k ∧ fsContains fs ⟨parent, ⟨slot, k⟩⟩ = true) ∧
    st'.collisions = st.collisions + (c - st.nextId) ∧
    (∀ (unp : List (FileName × FsPath)) (s2 : Nat)
      (e : SerializableAccountStorageEntry) (ws : WorkState)
      (m : SlotStorage) (origPath : FsPath) (c2 : Nat) (p2 : FsPath)
      (st2 : RemapState),
      lookupMap unp (FileName.mk s2 e.id) = some origPath →
      remapEntry e.id s2 origPath.parent ws.fs
        ⟨ws.next_append_vec_id, ws.num_collisions⟩ = (c2, p2, st2) →
      (e.id = c2 → (processStorageEntry unp s2 e ws m).1.fs = ws.fs) ∧
      (e.id ≠ c2 → ∀ fs2, fsRename ws.fs origPath p2 = .ok fs2 →
        (processStorageEntry unp s2 e ws m).1.fs = fs2)) := by
  obtain ⟨h1, h2, h3, h4, h5, h6⟩ := remapEntry_spec _ _ _ _ _ _ _ _ h
  refine ⟨⟨h1, h3, h2⟩, h5, h6, h4, ?_⟩
  intro unp s2 e ws m origPath c2 p2 st2 hlook hre
  constructor
  · intro heq
    unfold processStorageEntry
    dsimp only
    rw [hlook]
    dsimp only
    rw [hre]
    dsimp only
    rw [if_pos heq]
    cases hrs : reconstruct_single_storage ws.fs s2 p2 e (some c2) m <;> rfl
  · intro hne fs2 hrn
    unfold processStorageEntry
    dsimp only
    rw [hlook]
    dsimp only
    rw [hre]
    dsimp only
    rw [if_neg hne]
    rw [hrn]
    dsimp only
    cases hrs : reconstruct_single_storage fs2 s2 p2 e (some c2) m <;> rfl

/-- Witness for C4 at a concrete run with one collision: entry id 3 at slot 5
first draws candidate 0, rejected because a file sits at its path, then draws
1, accepted with the collision counter at 1 and the counter advanced past
1. -/
theorem remap_alloc_rename_spec_witness :
    ((⟨0, 0⟩ : RemapState).nextId ≤ 1 ∧
      (⟨2, 1⟩ : RemapState).nextId = 1 + 1 ∧
      (⟨0, ⟨5, 1⟩⟩ : FsPath) = ⟨0, ⟨5, 1⟩⟩) ∧
    (3 = 1 ∨ fsContains [(⟨0, ⟨5, 0⟩⟩, ⟨1, 1⟩)] ⟨0, ⟨5, 1⟩⟩ = false) :=
  ⟨(remap_alloc_rename_spec 3 5 0 [(⟨0, ⟨5, 0⟩⟩, ⟨1, 1⟩)] ⟨0, 0⟩ 1
      ⟨0, ⟨5, 1⟩⟩ ⟨2, 1⟩ rfl).1,
    (remap_alloc_rename_spec 3 5 0 [(⟨0, ⟨5, 0⟩⟩, ⟨1, 1⟩)] ⟨0, 0⟩ 1
      ⟨0, ⟨5, 1⟩⟩ ⟨2, 1⟩ rfl).2.1⟩

/-- C8 counterexample: the write versions are u64 counters and the fetch-add
wraps, so at prior write version 2 to the 64th minus 1 and snapshot version 1
the assembled write version is 0, not the plain sum. -/
theorem write_version_plain_add_counterexample :
    (assembleDb ⟨[], [], 0, 2 ^ 64 - 1⟩ [] 0 1 0 0).write_version ≠
      2 ^ 64 - 1 + 1 := by decide

/-- C8 (amended): the snapshot version is combined with the write version
already present in the db by addition (the fetch-add), not by overwriting,
the addition being the wrapping u64 one: for every prior value w and snapshot
version v the assembled write version is (w + v) mod 2 to the 64th; and
through a successful reconstruction the db's write version is the fresh db's
prior value plus the collapsed fields' write version, mod 2 to the 64th. -/
theorem write_version_additive_mod (accounts_db : AccountsDb)
    (storage : List (Nat × SlotStorage)) (next version slot bhi : Nat) :
    (assembleDb accounts_db storage next version slot bhi).write_version =
      (accounts_db.write_version + version) % U64_MOD ∧
    (∀ (snap : SnapshotAccountsDbFields SerializableAccountStorageEntry)
      (unp : List (FileName × FsPath)) (fs0 : Fs)
      (fields : AccountsDbFields SerializableAccountStorageEntry)
      (db : AccountsDb) (coll : Nat),
      snap.collapse_into = .ok fields →
      reconstruct_accountsdb_from_fields snap unp fs0 = .ok (db, coll) →
      db.write_version =
        (AccountsDb.new_with_config.write_version + fields.write_version) %
          U64_MOD) := by
  refine ⟨rfl, ?_⟩
  intro snap unp fs0 fields db coll hc h
  obtain ⟨fields2, ws, storageAll, hc2, -, hdb, -, -, -⟩ :=
    reconstruct_ok_cases snap unp fs0 db coll h
  rw [hc] at hc2
  injection hc2 with hf
  subst hf
  subst hdb
  rfl

/-- Witness for C8 (amended) at concrete values: prior write version 7 plus
snapshot version 5 assembles to 12 mod 2 to the 64th. -/
theorem write_version_additive_mod_witness :
    (assembleDb ⟨[], [], 0, 7⟩ [] 0 5 0 0).write_version =
      (7 + 5) % U64_MOD :=
  (write_version_additive_mod ⟨[], [], 0, 7⟩ [] 0 5 0 0).1

/-! ## Bank assembly and the stream orchestrator -/

/-- Bank fields drawn from one stream: the slot consumed by the bank
assembler, the ancestors handed to freeze_accounts, and an opaque token
standing for the remaining fields. -/
structure BankFieldsToDeserialize where
  slot : Nat
  ancestors : Nat
  rest : Nat
deriving DecidableEq, Repr

/-- Modelled from the spec: the external Bank constructor consumes the
wrapped accounts db at the bank fields' slot, the bank fields and the
debug flag; the model records the arguments handed to it. -/
structure Bank where
  bank_rc_slot : Nat
  fields : BankFieldsToDeserialize
  debug_do_not_add_builtins : Bool
  accounts_db : AccountsDb
deriving DecidableEq, Repr

/-- reconstruct_bank_from_fields (source lines 326-380): reconstruct the
accounts db, freeze the frozen account set (an external in-place step with
no field observable here), wrap the db at the bank fields' slot and invoke
the external Bank constructor, with debug_do_not_add_builtins set exactly
when limit_load_slot_count_from_snapshot was provided. -/
def reconstruct_bank_from_fields (bank_fields : BankFieldsToDeserialize)
    (snapshot_accounts_db_fields :
      SnapshotAccountsDbFields SerializableAccountStorageEntry)
    (unpacked_append_vec_map : List (FileName × FsPath)) (fs0 : Fs)
    (limit_load_slot_count_from_snapshot : Option Nat) :
    Except SnapshotError Bank :=
  match reconstruct_accountsdb_from_fields snapshot_accounts_db_fields
      unpacked_append_vec_map fs0 with
  | .error e => .error e
  | .ok (accounts_db, _) =>
    let debug_do_not_add_builtins :=
      limit_load_slot_count_from_snapshot.isSome
    .ok ⟨bank_fields.slot, bank_fields, debug_do_not_add_builtins,
      accounts_db⟩

/-- The format-variant selector; a single variant exists. -/
inductive SerdeStyle where
  | newer
deriving DecidableEq, Repr

/-- Modelled from the spec: each snapshot stream is represented by the
outcome of deserialize_bank_fields on it (the per-variant reader lives in
the external future module): a decode failure, or the bank fields and
accounts-db fields drawn from the stream in a single decode. -/
structure SnapshotStreams where
  full_snapshot_stream : Except SnapshotError
    (BankFieldsToDeserialize ×
      AccountsDbFields SerializableAccountStorageEntry)
  incremental_snapshot_stream : Option (Except SnapshotError
    (BankFieldsToDeserialize ×
      AccountsDbFields SerializableAccountStorageEntry))

/-- bank_from_streams (source lines 193-259): read the full stream, then the
incremental stream when present; combine the accounts-db fields of both and
construct the bank from the incremental bank fields when they exist
(unwrap_or discards the full ones), else from the full bank fields. -/
def bank_from_streams (serde_style : SerdeStyle)
    (snapshot_streams : SnapshotStreams)
    (unpacked_append_vec_map : List (FileName × FsPath)) (fs0 : Fs)
    (limit_load_slot_count_from_snapshot : Option Nat) :
    Except SnapshotError Bank :=
  match serde_style with
  | .newer =>
    match snapshot_streams.full_snapshot_stream with
    | .error e => .error e
    | .ok (full_snapshot_bank_fields, full_snapshot_accounts_db_fields) =>
      match snapshot_streams.incremental_snapshot_stream with
      | none =>
        reconstruct_bank_from_fields full_snapshot_bank_fields
          ⟨full_snapshot_accounts_db_fields, none⟩ unpacked_append_vec_map
          fs0 limit_load_slot_count_from_snapshot
      | some (.error e) => .error e
      | some (.ok (incremental_snapshot_bank_fields,
          incremental_snapshot_accounts_db_fields)) =>
        reconstruct_bank_from_fields incremental_snapshot_bank_fields
          ⟨full_snapshot_accounts_db_fields,
            some incremental_snapshot_accounts_db_fields⟩
          unpacked_append_vec_map fs0 limit_load_slot_count_from_snapshot

theorem reconstruct_bank_ok_fields (bank_fields : BankFieldsToDeserialize)
    (snap : SnapshotAccountsDbFields SerializableAccountStorageEntry)
    (unp : List (FileName × FsPath)) (fs0 : Fs) (limit : Option Nat)
    (bank : Bank)
    (h : reconstruct_bank_from_fields bank_fields snap unp fs0 limit =
      .ok bank) :
    bank.fields = bank_fields ∧
    bank.bank_rc_slot = bank_fields.slot ∧
    bank.debug_do_not_add_builtins = limit.isSome := by
  unfold reconstruct_bank_from_fields at h
  cases hr : reconstruct_accountsdb_from_fields snap unp fs0 with
  | error e => rw [hr] at h; cases h
  | ok pr =>
    rcases pr with ⟨adb, cnt⟩
    rw [hr] at h
    dsimp only at h
    injection h with hb
    subst hb
    exact ⟨rfl, rfl, rfl⟩

/-- C9: in the bank assembler the debug_do_not_add_builtins flag passed to
the external Bank constructor is set exactly when the caller provided
limit_load_slot_count_from_snapshot, for every invocation that produces a
bank. -/
theorem debug_do_not_add_builtins_iff (bank_fields : BankFieldsToDeserialize)
    (snap : SnapshotAccountsDbFields SerializableAccountStorageEntry)
    (unp : List (FileName × FsPath)) (fs0 : Fs) (limit : Option Nat)
    (bank : Bank)
    (h : reconstruct_bank_from_fields bank_fields snap unp fs0 limit =
      .ok bank) :
    bank.debug_do_not_add_builtins = limit.isSome := by
  unfold reconstruct_bank_from_fields at h
  cases hr : reconstruct_accountsdb_from_fields snap unp fs0 with
  | error e => rw [hr] at h; cases h
  | ok pr =>
    rcases pr with ⟨adb, cnt⟩
    rw [hr] at h
    dsimp only at h
    injection h with hb
    subst hb
    rfl

/-- Witness for C9 at a concrete successful run with a provided slot limit:
the flag handed to the constructor is true. -/
theorem debug_do_not_add_builtins_iff_witness :
    (⟨10, ⟨10, 0, 0⟩, true,
      ⟨[(10, 5)], [(10, [(0, ⟨10, 0, 4, 2⟩)])], 1, 3⟩⟩ :
      Bank).debug_do_not_add_builtins = (some 5 : Option Nat).isSome :=
  debug_do_not_add_builtins_iff ⟨10, 0, 0⟩
    ⟨⟨[(10, [⟨7, 4⟩])], 3, 10, 5⟩, none⟩ [(⟨10, 7⟩, ⟨0, ⟨10, 7⟩⟩)]
    [(⟨0, ⟨10, 7⟩⟩, ⟨4, 2⟩)] (some 5)
    ⟨10, ⟨10, 0, 0⟩, true, ⟨[(10, 5)], [(10, [(0, ⟨10, 0, 4, 2⟩)])], 1, 3⟩⟩
    rfl

/-- C10: bank_from_streams builds the bank from the bank fields deserialized
from the incremental stream when one is present, discarding the full
stream's bank fields, and from the full stream's bank fields otherwise. -/
theorem bank_from_streams_fields_choice (serde_style : SerdeStyle)
    (streams : SnapshotStreams) (unp : List (FileName × FsPath)) (fs0 : Fs)
    (limit : Option Nat) (bank : Bank)
    (h : bank_from_streams serde_style streams unp fs0 limit = .ok bank) :
    (∀ fb fdb ib idb, streams.full_snapshot_stream = .ok (fb, fdb) →
      streams.incremental_snapshot_stream = some (.ok (ib, idb)) →
      bank.fields = ib) ∧
    (∀ fb fdb, streams.full_snapshot_stream = .ok (fb, fdb) →
      streams.incremental_snapshot_stream = none →
      bank.fields = fb) := by
  cases serde_style
  unfold bank_from_streams at h
  constructor
  · intro fb fdb ib idb hfull hincr
    rw [hfull, hincr] at h
    dsimp only at h
    exact (reconstruct_bank_ok_fields _ _ _ _ _ _ h).1
  · intro fb fdb hfull hincr
    rw [hfull, hincr] at h
    dsimp only at h
    exact (reconstruct_bank_ok_fields _ _ _ _ _ _ h).1

/-- Witness for C10 at a concrete run with both streams present and
disjoint slots: the produced bank carries the incremental stream's bank
fields (slot 11), not the full stream's (slot 10). -/
theorem bank_from_streams_fields_choice_witness :
    (⟨11, ⟨11, 1, 2⟩, false,
      ⟨[(11, 8)], [(10, [(0, ⟨10, 0, 4, 2⟩)]),
        (11, [(1, ⟨11, 1, 6, 3⟩)])], 2, 9⟩⟩ : Bank).fields = ⟨11, 1, 2⟩ :=
  (bank_from_streams_fields_choice .newer
    ⟨.ok (⟨10, 0, 1⟩, ⟨[(10, [⟨1, 4⟩])], 3, 10, 5⟩),
      some (.ok (⟨11, 1, 2⟩, ⟨[(11, [⟨1, 6⟩])], 9, 11, 8⟩))⟩
    [(⟨10, 1⟩, ⟨0, ⟨10, 1⟩⟩), (⟨11, 1⟩, ⟨1, ⟨11, 1⟩⟩)]
    [(⟨0, ⟨10, 1⟩⟩, ⟨4, 2⟩), (⟨1, ⟨11, 1⟩⟩, ⟨6, 3⟩)] none
    ⟨11, ⟨11, 1, 2⟩, false,
      ⟨[(11, 8)], [(10, [(0, ⟨10, 0, 4, 2⟩)]),
        (11, [(1, ⟨11, 1, 6, 3⟩)])], 2, 9⟩⟩ rfl).1
    ⟨10, 0, 1⟩ ⟨[(10, [⟨1, 4⟩])], 3, 10, 5⟩ ⟨11, 1, 2⟩
    ⟨[(11, [⟨1, 6⟩])], 9, 11, 8⟩ rfl rfl

end SerdeSnapshot
